import Mathlib

/-!
# Verification of the spyral_notebooks ion-chamber signal-processing core

The notebooks in this repository drive the per-event ion-chamber (IC)
pipeline of the Spyral analysis library: baseline removal, peak detection,
trigger-peak resolution, good-peak selection and time-offset correction.
The notebooks only call this core (`FribEvent`, its traces and its three
queries); the implementations live in the external `spyral` package, so the
definitions below are modelled from the specification of that core.

Numbers are modelled as rationals (`ℚ`): centroids are fractional
time-bucket positions, amplitudes are real-valued sample heights, and all
comparisons the pipeline makes are order comparisons, which `ℚ` supports
decidably.
-/

/-- Modelled from the spec: a `Peak` is a detected local maximum of a
baseline-corrected sample sequence, with a fractional-time-bucket
`centroid`, a height `amplitude`, and the time-bucket indices bounding its
rising and falling edges. (The implementation is in the external `spyral`
package, `spyral.trace.peak`.) -/
structure Peak where
  centroid : ℚ
  amplitude : ℚ
  positive_inflection : ℚ
  negative_inflection : ℚ
  deriving Repr, DecidableEq

/-- Modelled from the spec: the FRIB-channel configuration parameters
(`spyral.FribParameters` is external). `ic_coincidence_window` is the fixed
tolerance window of the coincidence test; the spec leaves its width open, so
it is carried as a parameter here. -/
structure FribParameters where
  baseline_window_scale : ℚ
  peak_separation : ℚ
  peak_prominence : ℚ
  peak_max_width : ℚ
  peak_threshold : ℚ
  ic_delay_time_bucket : ℚ
  ic_multiplicity : ℕ
  ic_coincidence_window : ℚ
  deriving Repr, DecidableEq

/-- Modelled from the spec: a `Trace` pairs a baseline-corrected sample
sequence with its ordered list of detected peaks (`spyral.trace.frib_trace`
is external). -/
structure Trace where
  trace : List ℚ
  peaks : List Peak
  deriving Repr, DecidableEq

/-- Modelled from the spec: a `FribEvent` owns exactly one IC trace and one
auxiliary (silicon) trace (`spyral.trace.frib_event.FribEvent` is
external). -/
structure FribEvent where
  ic : Trace
  si : Trace
  deriving Repr, DecidableEq

def FribEvent.get_ic_trace (ev : FribEvent) : Trace := ev.ic

def FribEvent.get_si_trace (ev : FribEvent) : Trace := ev.si

/-- Modelled from the spec: two peaks are coincident when their
centroid-to-centroid separation falls within the fixed tolerance window. -/
def coincident (window : ℚ) (p q : Peak) : Bool :=
  decide (|p.centroid - q.centroid| ≤ window)

/-- Modelled from the spec: scan the IC trace's peaks in list (time) order
and return the first whose centroid is at or past `ic_delay_time_bucket`;
`none` when no peak lies past the delay threshold. (The implementation is
external, in `spyral.trace.frib_event`.) -/
def FribEvent.get_triggering_ic_peak (ev : FribEvent) (params : FribParameters) :
    Option Peak :=
  ev.get_ic_trace.peaks.find? (fun p => decide (params.ic_delay_time_bucket ≤ p.centroid))

/-- Modelled from the spec: a peak qualifies as a good-peak candidate when
its centroid is at or after the trigger peak's centroid (trigger included)
and it is not in time-coincidence with any auxiliary-channel peak. -/
def goodCandidate (params : FribParameters) (trig : Peak) (si_peaks : List Peak)
    (p : Peak) : Bool :=
  decide (trig.centroid ≤ p.centroid) &&
    !(si_peaks.any (fun q => coincident params.ic_coincidence_window p q))

/-- Fold selecting the peak of earliest centroid, first one winning ties. -/
def earliestPeak (p : Peak) (rest : List Peak) : Peak :=
  rest.foldl (fun best q => if q.centroid < best.centroid then q else best) p

/-- Modelled from the spec: count the qualifying peaks (multiplicity); reject
the event when the multiplicity exceeds `ic_multiplicity` or no peak
qualifies; otherwise return the multiplicity with the qualifying peak of
earliest centroid. (The implementation is external, in
`spyral.trace.frib_event`.) -/
def FribEvent.get_good_ic_peak (ev : FribEvent) (params : FribParameters) :
    Option (ℕ × Peak) :=
  match ev.get_triggering_ic_peak params with
  | none => none
  | some trig =>
    match ev.get_ic_trace.peaks.filter (goodCandidate params trig ev.get_si_trace.peaks) with
    | [] => none
    | p :: rest =>
      if params.ic_multiplicity < (p :: rest).length then none
      else some ((p :: rest).length, earliestPeak p rest)

/-- Modelled from the spec: the error taxonomy's usage error, raised when
time correction is requested without a resolved trigger. -/
inductive ICError where
  | invalidState
  deriving Repr, DecidableEq

/-- Modelled from the spec: the ion chamber's fixed sampling rate, against
which the tracking detector's `get_frequency` is taken as a ratio. Its
concrete value is immaterial to the claims, which constrain only the
ratio. -/
def IC_FREQUENCY : ℚ := 10

/-- Modelled from the spec: zero when the good peak is the trigger peak
(centroid equality); otherwise the signed centroid difference rescaled into
the tracking detector's clock domain by the frequency ratio. Requires a
resolved trigger peak; without one it fails with `InvalidState`. (The
implementation is external, in `spyral.trace.frib_event`.) -/
def FribEvent.correct_ic_time (ev : FribEvent) (good_peak : Peak)
    (params : FribParameters) (get_frequency : ℚ) : Except ICError ℚ :=
  match ev.get_triggering_ic_peak params with
  | none => .error .invalidState
  | some trig =>
    if good_peak.centroid = trig.centroid then .ok 0
    else .ok ((good_peak.centroid - trig.centroid) * (get_frequency / IC_FREQUENCY))

/-- The per-event outcomes of the pipeline as the notebooks drive it:
"no trigger" and "no good peak" are expected skip signals; an accepted
event carries its multiplicity, good peak and time offset. -/
inductive EventOutcome where
  | noTrigger
  | noGoodPeak
  | accepted (mult : ℕ) (peak : Peak) (ic_offset : ℚ)
  deriving Repr, DecidableEq

/-- The pipeline exactly as the notebook cell drives it: test the trigger
for absence, then the good peak for absence, and only then request the time
correction for the good peak. -/
def processEvent (ev : FribEvent) (params : FribParameters) (get_frequency : ℚ) :
    Except ICError EventOutcome :=
  match ev.get_triggering_ic_peak params with
  | none => .ok .noTrigger
  | some _ =>
    match ev.get_good_ic_peak params with
    | none => .ok .noGoodPeak
    | some (mult, peak) =>
      match ev.correct_ic_time peak params get_frequency with
      | .error e => .error e
      | .ok off => .ok (.accepted mult peak off)

/-- A peak at centroid `c` within a standard trace window, used to build
concrete events. -/
def peakAt (c : ℚ) : Peak :=
  { centroid := c, amplitude := 1, positive_inflection := 0, negative_inflection := 4096 }

/-- The smoothing half-width derived from the window-scale parameter; at
least one sample, larger scales giving wider (slower-following) windows. -/
def windowHalf (scale : ℚ) : ℕ :=
  max 1 scale.floor.toNat

/-- The samples inside the smoothing window around sample `i`, the window
clamped to the sequence's bounds. -/
def windowSamples (s : List ℚ) (half : ℕ) (i : ℕ) : List ℚ :=
  (List.range (min (s.length - 1) (i + half) + 1 - (i - half))).map
    (fun k => s.getD (i - half + k) 0)

/-- Modelled from the spec: the moving low-pass baseline estimate at sample
`i`, the mean of the samples in the smoothing window around `i` clamped to
the sequence's bounds. (The implementation is external, in the `spyral`
trace classes.) -/
def movingAverage (s : List ℚ) (half : ℕ) (i : ℕ) : ℚ :=
  (windowSamples s half i).sum / ((windowSamples s half i).length : ℚ)

/-- Modelled from the spec: the baseline estimator subtracts the moving
low-pass baseline estimate sample-wise from the raw sequence, yielding a
corrected sequence of the same length; it has no failure condition. -/
def baselineCorrect (s : List ℚ) (scale : ℚ) : List ℚ :=
  (List.range s.length).map (fun i => s.getD i 0 - movingAverage s (windowHalf scale) i)

/-- Modelled from the spec: sample `i` is a candidate local maximum when it
strictly exceeds both neighbours and the amplitude threshold (interior
samples only). -/
def isLocalMax (s : List ℚ) (threshold : ℚ) (i : ℕ) : Bool :=
  decide (0 < i) && decide (i + 1 < s.length) &&
    decide (s.getD (i - 1) 0 < s.getD i 0) && decide (s.getD (i + 1) 0 < s.getD i 0) &&
    decide (threshold < s.getD i 0)

/-- The candidate local-maximum indices of a sample sequence, in ascending
time order. -/
def localMaxima (s : List ℚ) (threshold : ℚ) : List ℕ :=
  (List.range s.length).filter (isLocalMax s threshold)

/-- Modelled from the spec: the sub-bucket centroid of the maximum at `i`,
from local weighted (parabolic) interpolation of the maximum sample and its
two neighbours. -/
def interpolateCentroid (s : List ℚ) (i : ℕ) : ℚ :=
  (i : ℚ) + (s.getD (i + 1) 0 - s.getD (i - 1) 0) /
    (2 * (2 * s.getD i 0 - s.getD (i - 1) 0 - s.getD (i + 1) 0))

/-- Modelled from the spec: walk left from the maximum to the nearest sample
where the rising slope changes sign or the signal falls back to baseline. -/
def leftInflection (s : List ℚ) : ℕ → ℕ
  | 0 => 0
  | j + 1 =>
    if s.getD j 0 < s.getD (j + 1) 0 && 0 < s.getD j 0 then leftInflection s j
    else j + 1

/-- Rightward walk with explicit fuel, for `rightInflection`. -/
def rightInflectionGo (s : List ℚ) : ℕ → ℕ → ℕ
  | 0, j => j
  | fuel + 1, j =>
    if s.getD (j + 1) 0 < s.getD j 0 && 0 < s.getD (j + 1) 0 then
      rightInflectionGo s fuel (j + 1)
    else j

/-- Modelled from the spec: walk right from the maximum to the nearest
sample where the falling slope changes sign or the signal falls back to
baseline. -/
def rightInflection (s : List ℚ) (i : ℕ) : ℕ :=
  rightInflectionGo s (s.length - i) i

/-- The `Peak` record characterizing the retained maximum at index `i`. -/
def mkPeak (s : List ℚ) (i : ℕ) : Peak :=
  { centroid := interpolateCentroid s i
    amplitude := s.getD i 0
    positive_inflection := (leftInflection s i : ℚ)
    negative_inflection := (rightInflection s i : ℚ) }

/-- Modelled from the spec: the maximum's prominence, its height above the
higher of its two edge boundaries, must reach the prominence parameter. -/
def prominenceOK (s : List ℚ) (prom : ℚ) (i : ℕ) : Bool :=
  decide (prom ≤ s.getD i 0 - max (s.getD (leftInflection s i) 0) (s.getD (rightInflection s i) 0))

/-- Modelled from the spec: the maximum's estimated full width, the span
between its edge boundaries, must not exceed the max-width parameter. -/
def widthOK (s : List ℚ) (maxWidth : ℚ) (i : ℕ) : Bool :=
  decide ((rightInflection s i : ℚ) - (leftInflection s i : ℚ) ≤ maxWidth)

/-- Modelled from the spec: when two candidate maxima are closer than the
separation parameter, retain only the larger-amplitude one. -/
def suppressClose (s : List ℚ) (sep : ℚ) : List ℕ → List ℕ
  | [] => []
  | [i] => [i]
  | i :: j :: rest =>
    if ((j : ℚ) - (i : ℚ)) < sep then
      if s.getD j 0 ≤ s.getD i 0 then suppressClose s sep (i :: rest)
      else suppressClose s sep (j :: rest)
    else i :: suppressClose s sep (j :: rest)
termination_by l => l.length

/-- The candidate maxima that survive the prominence and width criteria. -/
def detectCandidates (s : List ℚ) (params : FribParameters) : List ℕ :=
  (localMaxima s params.peak_threshold).filter
    (fun i => prominenceOK s params.peak_prominence i && widthOK s params.peak_max_width i)

/-- Modelled from the spec: the peak detector locates local maxima above the
amplitude threshold, suppresses those failing the prominence or width
criteria, resolves too-close pairs in favour of the larger, and
characterizes each retained maximum as a `Peak`. (The implementation is
external, in the `spyral` trace classes.) -/
def detectPeaks (s : List ℚ) (params : FribParameters) : List Peak :=
  (suppressClose s params.peak_separation (detectCandidates s params)).map (mkPeak s)

/-- Modelled from the spec: a channel's `Trace` binds the baseline-corrected
sample sequence to the peaks detected in it. -/
def mkFribTrace (raw : List ℚ) (params : FribParameters) : Trace :=
  { trace := baselineCorrect raw params.baseline_window_scale
    peaks := detectPeaks (baselineCorrect raw params.baseline_window_scale) params }

/-- Modelled from the spec: a `FribEvent` is built from the raw dual-channel
samples by baseline-correcting and peak-detecting each channel. -/
def FribEvent.build (ic_raw si_raw : List ℚ) (params : FribParameters) : FribEvent :=
  { ic := mkFribTrace ic_raw params, si := mkFribTrace si_raw params }

/-- The spec's reference configuration: delay threshold 1100, multiplicity
cap 1, with a 25-bucket coincidence tolerance. -/
def paramsA : FribParameters :=
  { baseline_window_scale := 100, peak_separation := 50, peak_prominence := 20,
    peak_max_width := 500, peak_threshold := 100, ic_delay_time_bucket := 1100,
    ic_multiplicity := 1, ic_coincidence_window := 25 }

/-- Scenario A: IC peaks at buckets 200 and 1150, no auxiliary peaks. -/
def evA : FribEvent :=
  { ic := { trace := [], peaks := [peakAt 200, peakAt 1150] },
    si := { trace := [], peaks := [] } }

/-- Scenario B: IC peaks at buckets 1150 and 1400, an auxiliary peak
coincident with the 1150 peak only. -/
def evB : FribEvent :=
  { ic := { trace := [], peaks := [peakAt 1150, peakAt 1400] },
    si := { trace := [], peaks := [peakAt 1150] } }

/-- Scenario C: no IC peak past the delay threshold. -/
def evC : FribEvent :=
  { ic := { trace := [], peaks := [peakAt 200] },
    si := { trace := [], peaks := [] } }

/-- Scenario D: three qualifying post-trigger IC peaks, no auxiliary
peaks. -/
def evD : FribEvent :=
  { ic := { trace := [], peaks := [peakAt 1150, peakAt 1300, peakAt 1450] },
    si := { trace := [], peaks := [] } }

theorem earliestPeak_mem (p : Peak) (l : List Peak) : earliestPeak p l ∈ p :: l := by
  induction l generalizing p with
  | nil => simp [earliestPeak]
  | cons q rest ih =>
    have h := ih (if q.centroid < p.centroid then q else p)
    simp only [earliestPeak, List.foldl_cons] at h ⊢
    rcases List.mem_cons.mp h with h1 | h1
    · rw [h1]
      split <;> simp
    · simp [h1]

theorem earliestPeak_le (p : Peak) (l : List Peak) :
    ∀ q ∈ p :: l, (earliestPeak p l).centroid ≤ q.centroid := by
  induction l generalizing p with
  | nil =>
    intro q hq
    simp only [List.mem_cons, List.not_mem_nil, or_false] at hq
    rw [hq]
    simp [earliestPeak]
  | cons r rest ih =>
    intro q hq
    have h := ih (if r.centroid < p.centroid then r else p)
    have hhead := h (if r.centroid < p.centroid then r else p) (List.mem_cons_self _ _)
    simp only [earliestPeak, List.foldl_cons] at h hhead ⊢
    have hp : (if r.centroid < p.centroid then r else p).centroid ≤ p.centroid := by
      split
      · next hlt => exact le_of_lt hlt
      · exact le_refl _
    have hr : (if r.centroid < p.centroid then r else p).centroid ≤ r.centroid := by
      split
      · exact le_refl _
      · next hlt => exact not_lt.mp hlt
    rcases List.mem_cons.mp hq with rfl | h1
    · exact le_trans hhead hp
    · rcases List.mem_cons.mp h1 with rfl | h2
      · exact le_trans hhead hr
      · exact h q (List.mem_cons_of_mem _ h2)

theorem find?_first_le (d : ℚ) (l : List Peak)
    (hsort : l.Pairwise (fun a b => a.centroid < b.centroid)) (p : Peak)
    (hp : l.find? (fun x => decide (d ≤ x.centroid)) = some p) :
    ∀ q ∈ l, d ≤ q.centroid → p.centroid ≤ q.centroid := by
  induction l with
  | nil => simp at hp
  | cons x xs ih =>
    intro q hq hdq
    by_cases hx : d ≤ x.centroid
    · rw [List.find?_cons_of_pos _ (by simpa using hx)] at hp
      obtain rfl : x = p := by injection hp
      rcases List.mem_cons.mp hq with rfl | hq'
      · exact le_refl _
      · exact le_of_lt ((List.pairwise_cons.mp hsort).1 q hq')
    · rw [List.find?_cons_of_neg _ (by simpa using hx)] at hp
      rcases List.mem_cons.mp hq with rfl | hq'
      · exact absurd hdq hx
      · exact ih (List.pairwise_cons.mp hsort).2 hp q hq' hdq

/-- C8: the coincidence test used by the good-peak selection is symmetric:
for every tolerance window and pair of peaks, `p` is coincident with `q`
exactly when `q` is coincident with `p`, the test depending only on the
absolute centroid-to-centroid separation. -/
theorem coincident_symm (w : ℚ) (p q : Peak) : coincident w p q = coincident w q p := by
  simp [coincident, abs_sub_comm]

/-- C4: when the good peak is the trigger peak itself (centroid equality),
`correct_ic_time` returns exactly 0. -/
theorem correct_ic_time_zero_on_trigger (ev : FribEvent) (params : FribParameters)
    (f : ℚ) (gp trig : Peak)
    (htrig : ev.get_triggering_ic_peak params = some trig)
    (heq : gp.centroid = trig.centroid) :
    ev.correct_ic_time gp params f = .ok 0 := by
  unfold FribEvent.correct_ic_time
  rw [htrig]
  simp [heq]

theorem correct_ic_time_zero_on_trigger_witness :
    evA.correct_ic_time (peakAt 1150) paramsA (25/4) = .ok 0 :=
  correct_ic_time_zero_on_trigger evA paramsA (25/4) (peakAt 1150) (peakAt 1150)
    (by decide) rfl

/-- C3: when the good peak differs from the trigger peak,
`correct_ic_time` returns the signed centroid difference rescaled into the
tracking detector's clock domain by the ratio of the `get_frequency`
argument to the IC's fixed rate. -/
theorem correct_ic_time_rescales (ev : FribEvent) (params : FribParameters)
    (f : ℚ) (gp trig : Peak)
    (htrig : ev.get_triggering_ic_peak params = some trig)
    (hne : gp.centroid ≠ trig.centroid) :
    ev.correct_ic_time gp params f =
      .ok ((gp.centroid - trig.centroid) * (f / IC_FREQUENCY)) := by
  unfold FribEvent.correct_ic_time
  rw [htrig]
  simp [hne]

theorem correct_ic_time_rescales_witness :
    evB.correct_ic_time (peakAt 1400) paramsA (25/4) =
      .ok (((peakAt 1400).centroid - (peakAt 1150).centroid) * ((25/4) / IC_FREQUENCY)) :=
  correct_ic_time_rescales evB paramsA (25/4) (peakAt 1400) (peakAt 1150)
    (by decide) (by decide)

/-- C5: requesting the time correction without a resolved trigger fails
with the `InvalidState` error rather than returning any value; when a
trigger peak exists, the error branch is unreachable and some value is
returned. -/
theorem correct_ic_time_invalid_state (ev : FribEvent) (params : FribParameters)
    (f : ℚ) (gp : Peak) :
    (ev.get_triggering_ic_peak params = none →
      ev.correct_ic_time gp params f = .error .invalidState) ∧
    (∀ trig, ev.get_triggering_ic_peak params = some trig →
      ∃ v, ev.correct_ic_time gp params f = .ok v) := by
  constructor
  · intro h
    unfold FribEvent.correct_ic_time
    rw [h]
  · intro trig h
    unfold FribEvent.correct_ic_time
    rw [h]
    by_cases hc : gp.centroid = trig.centroid <;> simp [hc]

theorem correct_ic_time_invalid_state_witness :
    (evC.correct_ic_time (peakAt 200) paramsA 5 = .error .invalidState) ∧
    (∃ v, evA.correct_ic_time (peakAt 200) paramsA 5 = .ok v) :=
  ⟨(correct_ic_time_invalid_state evC paramsA 5 (peakAt 200)).1 (by decide),
   (correct_ic_time_invalid_state evA paramsA 5 (peakAt 200)).2 (peakAt 1150) (by decide)⟩

/-- C6: the expected per-event outcomes "no trigger" and "no good peak"
never interrupt control flow: driven as the notebooks drive it, the
pipeline always yields a successful outcome, the absences being signalled
by the explicit optional results of `get_triggering_ic_peak` and
`get_good_ic_peak`. -/
theorem processEvent_never_errors (ev : FribEvent) (params : FribParameters) (f : ℚ) :
    ∃ o, processEvent ev params f = .ok o := by
  unfold processEvent
  cases htrig : ev.get_triggering_ic_peak params with
  | none => exact ⟨_, rfl⟩
  | some trig =>
    cases hg : ev.get_good_ic_peak params with
    | none => exact ⟨_, rfl⟩
    | some mp =>
      obtain ⟨m, p⟩ := mp
      have hok : ∃ v, ev.correct_ic_time p params f = .ok v := by
        unfold FribEvent.correct_ic_time
        rw [htrig]
        by_cases hc : p.centroid = trig.centroid <;> simp [hc]
      obtain ⟨v, hv⟩ := hok
      exact ⟨.accepted m p v, by simp [hv]⟩

theorem get_good_ic_peak_eq (ev : FribEvent) (params : FribParameters) (trig : Peak)
    (htrig : ev.get_triggering_ic_peak params = some trig) :
    ev.get_good_ic_peak params =
      match ev.get_ic_trace.peaks.filter (goodCandidate params trig ev.get_si_trace.peaks) with
      | [] => none
      | p :: rest =>
        if params.ic_multiplicity < (p :: rest).length then none
        else some ((p :: rest).length, earliestPeak p rest) := by
  unfold FribEvent.get_good_ic_peak
  rw [htrig]

theorem get_good_ic_peak_of_no_trigger (ev : FribEvent) (params : FribParameters)
    (h : ev.get_triggering_ic_peak params = none) :
    ev.get_good_ic_peak params = none := by
  unfold FribEvent.get_good_ic_peak
  rw [h]

/-- C1: `get_triggering_ic_peak` returns the first peak, in ascending
centroid order, whose centroid is at or past `ic_delay_time_bucket`, and an
absent result when no peak reaches the threshold; consequently a returned
trigger peak has the smallest centroid among all IC peaks at or past the
threshold. -/
theorem get_triggering_ic_peak_first (ev : FribEvent) (params : FribParameters)
    (hsort : ev.get_ic_trace.peaks.Pairwise (fun a b => a.centroid < b.centroid)) :
    (ev.get_triggering_ic_peak params = none ↔
      ∀ p ∈ ev.get_ic_trace.peaks, p.centroid < params.ic_delay_time_bucket) ∧
    (∀ p, ev.get_triggering_ic_peak params = some p →
      p ∈ ev.get_ic_trace.peaks ∧ params.ic_delay_time_bucket ≤ p.centroid ∧
      ∀ q ∈ ev.get_ic_trace.peaks, params.ic_delay_time_bucket ≤ q.centroid →
        p.centroid ≤ q.centroid) := by
  constructor
  · unfold FribEvent.get_triggering_ic_peak
    rw [List.find?_eq_none]
    constructor
    · intro h p hp
      simpa using h p hp
    · intro h p hp
      simpa using h p hp
  · intro p hp
    have hmem := List.mem_of_find?_eq_some hp
    have hpred := List.find?_some hp
    refine ⟨hmem, by simpa using hpred, ?_⟩
    exact find?_first_le params.ic_delay_time_bucket _ hsort p hp

theorem get_triggering_ic_peak_first_witness :
    peakAt 1150 ∈ evA.get_ic_trace.peaks ∧
    paramsA.ic_delay_time_bucket ≤ (peakAt 1150).centroid ∧
    ∀ q ∈ evA.get_ic_trace.peaks, paramsA.ic_delay_time_bucket ≤ q.centroid →
      (peakAt 1150).centroid ≤ q.centroid :=
  (get_triggering_ic_peak_first evA paramsA (by decide)).2 (peakAt 1150) (by decide)

/-- C2: with a resolved trigger peak, `get_good_ic_peak` counts the IC
peaks at or after the trigger's centroid (trigger included) that are not
coincident with any auxiliary-channel peak; it returns an absent result
when that multiplicity exceeds `ic_multiplicity` or when no peak
qualifies, and otherwise the multiplicity paired with the qualifying peak
of earliest centroid. -/
theorem get_good_ic_peak_spec (ev : FribEvent) (params : FribParameters) (trig : Peak)
    (htrig : ev.get_triggering_ic_peak params = some trig) :
    (params.ic_multiplicity <
        (ev.get_ic_trace.peaks.filter (goodCandidate params trig ev.get_si_trace.peaks)).length ∨
      ev.get_ic_trace.peaks.filter (goodCandidate params trig ev.get_si_trace.peaks) = [] →
        ev.get_good_ic_peak params = none) ∧
    (ev.get_ic_trace.peaks.filter (goodCandidate params trig ev.get_si_trace.peaks) ≠ [] →
      (ev.get_ic_trace.peaks.filter (goodCandidate params trig ev.get_si_trace.peaks)).length ≤
        params.ic_multiplicity →
      ∃ p, ev.get_good_ic_peak params =
          some ((ev.get_ic_trace.peaks.filter
            (goodCandidate params trig ev.get_si_trace.peaks)).length, p) ∧
        p ∈ ev.get_ic_trace.peaks.filter (goodCandidate params trig ev.get_si_trace.peaks) ∧
        ∀ q ∈ ev.get_ic_trace.peaks.filter (goodCandidate params trig ev.get_si_trace.peaks),
          p.centroid ≤ q.centroid) := by
  rw [get_good_ic_peak_eq ev params trig htrig]
  cases hf : ev.get_ic_trace.peaks.filter (goodCandidate params trig ev.get_si_trace.peaks) with
  | nil =>
    constructor
    · intro _
      rfl
    · intro hne
      exact absurd rfl hne
  | cons p rest =>
    constructor
    · intro h
      rcases h with h | h
      · show (if params.ic_multiplicity < (p :: rest).length then none
            else some ((p :: rest).length, earliestPeak p rest)) = none
        rw [if_pos h]
      · exact absurd h (by simp)
    · intro _ hlen
      refine ⟨earliestPeak p rest, ?_, earliestPeak_mem p rest, earliestPeak_le p rest⟩
      show (if params.ic_multiplicity < (p :: rest).length then none
          else some ((p :: rest).length, earliestPeak p rest)) =
        some ((p :: rest).length, earliestPeak p rest)
      rw [if_neg (not_lt.mpr hlen)]

theorem get_good_ic_peak_spec_witness :
    evB.get_good_ic_peak paramsA = some (1, peakAt 1400) := by
  have hfil : evB.get_ic_trace.peaks.filter
      (goodCandidate paramsA (peakAt 1150) evB.get_si_trace.peaks) = [peakAt 1400] := by
    norm_num [goodCandidate, coincident, evB, paramsA, peakAt,
      FribEvent.get_ic_trace, FribEvent.get_si_trace, List.filter]
  obtain ⟨p, hp, hmem, -⟩ :=
    (get_good_ic_peak_spec evB paramsA (peakAt 1150) (by decide)).2
      (by rw [hfil]; simp) (by rw [hfil]; simp [paramsA])
  rw [hfil] at hp hmem
  simp only [List.mem_singleton] at hmem
  rw [hmem] at hp
  simpa [earliestPeak] using hp

/-- C10: a present `get_good_ic_peak` result is a pair whose first
component is the multiplicity count and whose second component is the
selected peak, one of the IC trace's peaks, so the notebooks' unpacking of
component one as the peak handed to `correct_ic_time` is type-correct. -/
theorem get_good_ic_peak_pair (ev : FribEvent) (params : FribParameters)
    (r : ℕ × Peak) (h : ev.get_good_ic_peak params = some r) :
    ∃ trig, ev.get_triggering_ic_peak params = some trig ∧
      r.1 = (ev.get_ic_trace.peaks.filter
        (goodCandidate params trig ev.get_si_trace.peaks)).length ∧
      r.2 ∈ ev.get_ic_trace.peaks := by
  cases htrig : ev.get_triggering_ic_peak params with
  | none =>
    rw [get_good_ic_peak_of_no_trigger ev params htrig] at h
    exact absurd h (by simp)
  | some trig =>
    rw [get_good_ic_peak_eq ev params trig htrig] at h
    refine ⟨trig, rfl, ?_⟩
    cases hf : ev.get_ic_trace.peaks.filter (goodCandidate params trig ev.get_si_trace.peaks) with
    | nil =>
      rw [hf] at h
      exact absurd h (by simp)
    | cons p rest =>
      rw [hf] at h
      have h' : (if params.ic_multiplicity < (p :: rest).length then none
          else some ((p :: rest).length, earliestPeak p rest)) = some r := h
      by_cases hcap : params.ic_multiplicity < (p :: rest).length
      · rw [if_pos hcap] at h'
        exact absurd h' (by simp)
      · rw [if_neg hcap] at h'
        have heq : ((p :: rest).length, earliestPeak p rest) = r := by injection h'
        cases heq
        refine ⟨rfl, ?_⟩
        have hmem := earliestPeak_mem p rest
        rw [← hf] at hmem
        exact List.mem_of_mem_filter hmem

theorem windowSamples_length_pos (s : List ℚ) (half i : ℕ) (hi : i < s.length) :
    0 < (windowSamples s half i).length := by
  unfold windowSamples
  simp only [List.length_map, List.length_range]
  omega

theorem windowSamples_flat (s : List ℚ) (c : ℚ) (half i : ℕ)
    (hs : ∀ x ∈ s, x = c) (hi : i < s.length) :
    ∀ x ∈ windowSamples s half i, x = c := by
  intro x hx
  unfold windowSamples at hx
  obtain ⟨k, hk, rfl⟩ := List.mem_map.mp hx
  have hk' := List.mem_range.mp hk
  have hj : i - half + k < s.length := by omega
  rw [List.getD_eq_getElem s 0 hj]
  exact hs _ (List.getElem_mem hj)

theorem movingAverage_flat (s : List ℚ) (c : ℚ) (half i : ℕ)
    (hs : ∀ x ∈ s, x = c) (hi : i < s.length) :
    movingAverage s half i = c := by
  unfold movingAverage
  have hnpos := windowSamples_length_pos s half i hi
  rw [List.sum_eq_card_nsmul _ c (windowSamples_flat s c half i hs hi), nsmul_eq_mul,
    mul_div_cancel_left₀ c (by exact_mod_cast hnpos.ne')]

/-- C9: the baseline estimator always succeeds, returning a corrected
sequence of exactly the input's length for every raw sequence and every
window-scale parameter, and returns all zeros on a degenerate (flat)
input. -/
theorem baselineCorrect_spec (s : List ℚ) (scale : ℚ) :
    (baselineCorrect s scale).length = s.length ∧
    ∀ c, (∀ x ∈ s, x = c) → ∀ y ∈ baselineCorrect s scale, y = 0 := by
  constructor
  · simp [baselineCorrect]
  · intro c hc y hy
    unfold baselineCorrect at hy
    obtain ⟨i, hi, rfl⟩ := List.mem_map.mp hy
    have hi' : i < s.length := List.mem_range.mp hi
    rw [movingAverage_flat s c _ i hc hi', List.getD_eq_getElem s 0 hi',
      hc _ (List.getElem_mem hi'), sub_self]

theorem baselineCorrect_spec_witness :
    (baselineCorrect [3, 3, 3] 2).length = 3 ∧
    ∀ y ∈ baselineCorrect [3, 3, 3] 2, y = 0 :=
  ⟨(baselineCorrect_spec [3, 3, 3] 2).1,
   fun y hy => (baselineCorrect_spec [3, 3, 3] 2).2 3 (by decide) y hy⟩

theorem get_good_ic_peak_pair_witness :
    ∃ trig, evA.get_triggering_ic_peak paramsA = some trig ∧
      (1 : ℕ) = (evA.get_ic_trace.peaks.filter
        (goodCandidate paramsA trig evA.get_si_trace.peaks)).length ∧
      peakAt 1150 ∈ evA.get_ic_trace.peaks :=
  get_good_ic_peak_pair evA paramsA (1, peakAt 1150) (by
    norm_num [FribEvent.get_good_ic_peak, FribEvent.get_triggering_ic_peak, goodCandidate,
      coincident, earliestPeak, evA, paramsA, peakAt, FribEvent.get_ic_trace,
      FribEvent.get_si_trace, List.find?, List.filter])

theorem isLocalMax_spec {s : List ℚ} {t : ℚ} {i : ℕ} (h : isLocalMax s t i = true) :
    0 < i ∧ i + 1 < s.length ∧ s.getD (i - 1) 0 < s.getD i 0 ∧
    s.getD (i + 1) 0 < s.getD i 0 ∧ t < s.getD i 0 := by
  simpa [isLocalMax, and_assoc] using h

theorem mem_localMaxima {s : List ℚ} {t : ℚ} {i : ℕ} (h : i ∈ localMaxima s t) :
    isLocalMax s t i = true :=
  (List.mem_filter.mp h).2

theorem localMaxima_sorted (s : List ℚ) (t : ℚ) :
    (localMaxima s t).Pairwise (· < ·) :=
  (List.pairwise_lt_range _).sublist (List.filter_sublist _)

theorem localMaxima_gap {s : List ℚ} {t : ℚ} {i j : ℕ}
    (hi : i ∈ localMaxima s t) (hj : j ∈ localMaxima s t) (hij : i < j) :
    i + 2 ≤ j := by
  by_contra hcon
  have hji : j = i + 1 := by omega
  subst hji
  obtain ⟨-, -, hleft, -, -⟩ := isLocalMax_spec (mem_localMaxima hj)
  obtain ⟨-, -, -, hright, -⟩ := isLocalMax_spec (mem_localMaxima hi)
  have hred : i + 1 - 1 = i := by omega
  rw [hred] at hleft
  linarith

theorem interpolateCentroid_bound {s : List ℚ} {t : ℚ} {i : ℕ}
    (h : isLocalMax s t i = true) :
    |interpolateCentroid s i - (i : ℚ)| < 1 / 2 := by
  obtain ⟨-, -, ha, hc, -⟩ := isLocalMax_spec h
  unfold interpolateCentroid
  have hd : (0 : ℚ) < 2 * (2 * s.getD i 0 - s.getD (i - 1) 0 - s.getD (i + 1) 0) := by
    linarith
  rw [add_sub_cancel_left, abs_div, abs_of_pos hd, div_lt_iff₀ hd]
  refine abs_lt.mpr ⟨by linarith, by linarith⟩

theorem suppressClose_sublist (s : List ℚ) (sep : ℚ) (l : List ℕ) :
    List.Sublist (suppressClose s sep l) l := by
  induction l using suppressClose.induct s sep with
  | case1 => simp [suppressClose]
  | case2 i => simp [suppressClose]
  | case3 i j rest hclose hamp ih =>
    rw [suppressClose, if_pos hclose, if_pos hamp]
    exact ih.trans ((List.sublist_cons_self j rest).cons₂ i)
  | case4 i j rest hclose hamp ih =>
    rw [suppressClose, if_pos hclose, if_neg hamp]
    exact ih.trans (List.sublist_cons_self i (j :: rest))
  | case5 i j rest hclose ih =>
    rw [suppressClose, if_neg hclose]
    exact ih.cons₂ i

theorem detectPeaks_sorted (s : List ℚ) (params : FribParameters) :
    (detectPeaks s params).Pairwise (fun p q => p.centroid < q.centroid) := by
  unfold detectPeaks
  rw [List.pairwise_map]
  have hsub : List.Sublist
      (suppressClose s params.peak_separation (detectCandidates s params))
      (localMaxima s params.peak_threshold) :=
    (suppressClose_sublist s params.peak_separation _).trans (List.filter_sublist _)
  have hsorted := (localMaxima_sorted s params.peak_threshold).sublist hsub
  refine hsorted.imp_of_mem ?_
  intro a b ha hb hab
  have ha' := mem_localMaxima (hsub.subset ha)
  have hb' := mem_localMaxima (hsub.subset hb)
  have hgap := localMaxima_gap (hsub.subset ha) (hsub.subset hb) hab
  have h1 := interpolateCentroid_bound ha'
  have h2 := interpolateCentroid_bound hb'
  rw [abs_lt] at h1 h2
  have hcast : (a : ℚ) + 2 ≤ (b : ℚ) := by exact_mod_cast hgap
  show (mkPeak s a).centroid < (mkPeak s b).centroid
  unfold mkPeak
  simp only []
  linarith [h1.1, h1.2, h2.1, h2.2]

/-- C7: every trace produced by peak detection on a baseline-corrected
sample sequence has its peaks strictly ascending by centroid: no two peaks
share a centroid and list order is time order. -/
theorem mkFribTrace_peaks_sorted (raw : List ℚ) (params : FribParameters) :
    (mkFribTrace raw params).peaks.Pairwise (fun p q => p.centroid < q.centroid) :=
  detectPeaks_sorted _ _
